import Mathlib

/-!
# Verification of the bookmark-manager core (entity store, URL normalization,
  the import pipeline, realtime merge handlers)

Shallow embedding of the repository's core logic:

* `src/lib/bookmark-parser.ts` — `normalizeUrl`, `isValidUrl`,
  `parseBookmarkHtml` (over an abstract DOM tree);
* the zustand entity store (`useBookmarkStore`) — optimistic mutating
  actions with rollback, demo-mode guards, and the `...FromRemote`
  realtime merge handlers;
* `src/components/bookmarks/ImportBookmarksDialog.tsx` — `handleImport`.

The browser's WHATWG `URL` constructor is platform code; it is modelled
here by `parseURL`, which is faithful to browser behaviour on the plain
ASCII fragment of `http:`/`https:` URLs (no percent-encoding, no
`.`-initial path segments, no IPv6/IDN hosts, and other schemes are out
of the modelled fragment; inputs outside the fragment are treated as
unparseable).  JavaScript's `toLowerCase` is modelled as ASCII lowering.
-/

namespace BookmarkApp

/-- ASCII lowercase on a single character (models `String.prototype.toLowerCase`
restricted to ASCII, which is all the modelled URL fragment contains). -/
def lowerChar (c : Char) : Char :=
  if 65 ≤ c.toNat ∧ c.toNat ≤ 90 then Char.ofNat (c.toNat + 32) else c

/-- ASCII lowercase on a string. -/
def lowerStr (s : String) : String :=
  String.mk (s.data.map lowerChar)

/-- Characters allowed in a host name in the modelled URL fragment:
ASCII letters, digits, `.` and `-`. -/
def hostChar (c : Char) : Bool :=
  (65 ≤ c.toNat ∧ c.toNat ≤ 90) ∨ (97 ≤ c.toNat ∧ c.toNat ≤ 122) ∨
    (48 ≤ c.toNat ∧ c.toNat ≤ 57) ∨ c = '.' ∨ c = '-'

/-- Characters allowed in a path in the modelled URL fragment. -/
def pathChar (c : Char) : Bool :=
  (65 ≤ c.toNat ∧ c.toNat ≤ 90) ∨ (97 ≤ c.toNat ∧ c.toNat ≤ 122) ∨
    (48 ≤ c.toNat ∧ c.toNat ≤ 57) ∨ c = '/' ∨ c = '.' ∨ c = '-' ∨ c = '_' ∨ c = '~'

/-- Characters allowed in a query in the modelled URL fragment. -/
def queryChar (c : Char) : Bool :=
  (65 ≤ c.toNat ∧ c.toNat ≤ 90) ∨ (97 ≤ c.toNat ∧ c.toNat ≤ 122) ∨
    (48 ≤ c.toNat ∧ c.toNat ≤ 57) ∨ c = '=' ∨ c = '&' ∨ c = '-' ∨ c = '_' ∨
    c = '.' ∨ c = '/' ∨ c = '~'

/-- `true` when the char list contains the adjacent pair `/.`; such paths
(dot segments, dot-initial segments) are outside the modelled fragment
because the WHATWG parser rewrites `.` and `..` segments. -/
def hasDotSeg : List Char → Bool
  | c1 :: c2 :: rest => (c1 = '/' && c2 = '.') || hasDotSeg (c2 :: rest)
  | _ => false

/-- The characters of a URL authority after the last `@` (the WHATWG parser
treats everything before the last `@` as user info). -/
def afterLastAt (cs : List Char) : List Char :=
  (cs.reverse.takeWhile (fun c => c ≠ '@')).reverse

/-- Result of parsing a URL: the components `normalizeUrl` reads
(`protocol`, `hostname`, `pathname`, `search`); the fragment is dropped. -/
structure URLParts where
  protocol : String
  hostname : String
  pathname : String
  search : String
deriving Repr, DecidableEq

/-- Split off a case-insensitive `http://` or `https://` scheme prefix,
returning the lowercased `protocol` (with trailing `:`) and the rest. -/
def schemeSplit (cs : List Char) : Option (String × List Char) :=
  if (cs.map lowerChar).take 8 = "https://".data then
    some ("https:", cs.drop 8)
  else if (cs.map lowerChar).take 7 = "http://".data then
    some ("http:", cs.drop 7)
  else
    none

/-- The authority/path/query stage of the URL parse, run on what follows
the `scheme://` prefix. -/
def parseAfterScheme (proto : String) (rest : List Char) : Option URLParts :=
  let auth := rest.takeWhile (fun c => ¬(c = '/' ∨ c = '?' ∨ c = '#'))
  let rest2 := rest.dropWhile (fun c => ¬(c = '/' ∨ c = '?' ∨ c = '#'))
  let hostport := afterLastAt auth
  let host := hostport.takeWhile (fun c => c ≠ ':')
  let port := hostport.dropWhile (fun c => c ≠ ':')
  if host = [] then none
  else if ¬ host.all hostChar then none
  else if ¬ (port.drop 1).all Char.isDigit then none
  else
    let path := rest2.takeWhile (fun c => ¬(c = '?' ∨ c = '#'))
    let rest3 := rest2.dropWhile (fun c => ¬(c = '?' ∨ c = '#'))
    if ¬ path.all pathChar then none
    else if hasDotSeg path then none
    else
      let pathname := if path = [] then "/" else String.mk path
      let query :=
        match rest3 with
        | c :: qs => if c = '?' then qs.takeWhile (fun c => c ≠ '#') else []
        | [] => []
      if ¬ query.all queryChar then none
      else
        let search := if query = [] then "" else String.mk ('?' :: query)
        some ⟨proto, String.mk (host.map lowerChar), pathname, search⟩

/-- Model of the browser's `new URL(s)` on the plain ASCII fragment of
absolute `http:`/`https:` URLs.  Returns `none` where the real constructor
throws, and also for inputs outside the modelled fragment. -/
def parseURL (s : String) : Option URLParts :=
  match schemeSplit s.data with
  | some (proto, rest) => parseAfterScheme proto rest
  | none => none

/-- `pathname.replace(/\/$/, '')`: remove a single trailing slash. -/
def stripOneTrailingSlash (p : String) : String :=
  match p.data.getLast? with
  | some c => if c = '/' then String.mk p.data.dropLast else p
  | none => p

/-- `pathname.replace(/\/$/, '') || '/'`: the normalized path. -/
def normalizePath (p : String) : String :=
  let path0 := stripOneTrailingSlash p
  if path0 = "" then "/" else path0

/-- A path ends in two slashes; stripping a single trailing slash is not
idempotent exactly on such paths. -/
def endsInDoubleSlash (p : String) : Bool :=
  p.data.getLast? = some '/' && p.data.dropLast.getLast? = some '/'

/-- Embedding of `normalizeUrl` (src/lib/bookmark-parser.ts:145-156):
lowercase the hostname, strip one trailing slash from the path (restoring
`/` when the result is empty), keep the query, drop everything else; on a
parse failure return the lowercased input. -/
def normalizeUrl (url : String) : String :=
  match parseURL url with
  | some parsed =>
      parsed.protocol ++ "//" ++ lowerStr parsed.hostname ++
        normalizePath parsed.pathname ++ parsed.search
  | none => lowerStr url

/-- Embedding of `isValidUrl` (src/lib/bookmark-parser.ts:126-133) over the
modelled URL fragment: the input parses and its protocol is http/https. -/
def isValidUrl (s : String) : Bool :=
  match parseURL s with
  | some u => u.protocol = "http:" ∨ u.protocol = "https:"
  | none => false

/-- Embedding of `getDomainFromUrl` (src/lib/utils): the hostname when the
URL parses, the input itself otherwise. -/
def getDomainFromUrl (url : String) : String :=
  match parseURL url with
  | some u => u.hostname
  | none => url

/-- Embedding of `getFaviconUrl` (src/lib/utils). -/
def getFaviconUrl (url : String) : String :=
  "https://www.google.com/s2/favicons?domain=" ++ getDomainFromUrl url ++ "&sz=64"

/-! ## Entity store data model (src/types/index.ts and the store's usage) -/

/-- The `Bookmark` entity.  Timestamps (`createdAt`/`updatedAt`, ISO strings
in the source, ordered by time) are modelled as naturals. -/
structure Bookmark where
  id : String
  title : String
  url : String
  description : Option String := none
  favicon : Option String := none
  thumbnail : Option String := none
  collectionId : String
  tags : List String
  isFavorite : Bool
  isArchived : Bool
  isTrashed : Bool
  isPinned : Bool
  createdAt : Nat
  updatedAt : Nat
deriving Repr, DecidableEq

/-- The `Collection` entity (`isSystem?` is optional in the source and only
its truthiness is read, so it is a `Bool` here). -/
structure Collection where
  id : String
  name : String
  icon : Option String := none
  color : Option String := none
  isSystem : Bool := false
deriving Repr, DecidableEq

/-- The `Tag` entity. -/
structure Tag where
  id : String
  name : String
  color : String
deriving Repr, DecidableEq

/-- The entity slice of the store's state: the three canonical lists the
claims are about (`bookmarks`, `collections`, `tags`). -/
@[ext]
structure StoreState where
  bookmarks : List Bookmark
  collections : List Collection
  tags : List Tag
deriving Repr, DecidableEq

/-- `defaultCollections` from the store: the two system collections. -/
def defaultCollections : List Collection :=
  [{ id := "all", name := "All Bookmarks", icon := some "bookmark", isSystem := true },
   { id := "unsorted", name := "Unsorted", icon := some "inbox", isSystem := true }]

/-- The store's initial entity state. -/
def initialState : StoreState :=
  { bookmarks := [], collections := defaultCollections, tags := [] }

/-- The configuration/session environment an action runs under:
`demo` is `isDemoMode()` (a build-time configuration switch),
`remoteActive` is `isSupabaseConfigured() && supabase && user`,
`remoteFails` says whether the remote write issued by this action errors. -/
structure Env where
  demo : Bool
  remoteActive : Bool
  remoteFails : Bool
deriving Repr, DecidableEq

/-- `Partial<Bookmark>` as passed to `updateBookmark` (callers never update
`id`, `createdAt` or `updatedAt`; `updatedAt` is overwritten by the action). -/
structure BookmarkUpdates where
  title : Option String := none
  url : Option String := none
  description : Option (Option String) := none
  favicon : Option (Option String) := none
  thumbnail : Option (Option String) := none
  collectionId : Option String := none
  tags : Option (List String) := none
  isFavorite : Option Bool := none
  isArchived : Option Bool := none
  isTrashed : Option Bool := none
  isPinned : Option Bool := none
deriving Repr, DecidableEq

/-- `{ ...b, ...updates, updatedAt: now }`. -/
def applyBookmarkUpdates (b : Bookmark) (u : BookmarkUpdates) (now : Nat) : Bookmark :=
  { b with
    title := u.title.getD b.title
    url := u.url.getD b.url
    description := u.description.getD b.description
    favicon := u.favicon.getD b.favicon
    thumbnail := u.thumbnail.getD b.thumbnail
    collectionId := u.collectionId.getD b.collectionId
    tags := u.tags.getD b.tags
    isFavorite := u.isFavorite.getD b.isFavorite
    isArchived := u.isArchived.getD b.isArchived
    isTrashed := u.isTrashed.getD b.isTrashed
    isPinned := u.isPinned.getD b.isPinned
    updatedAt := now }

/-- `Partial<Collection>` as passed to `updateCollection` (callers update
`name`/`icon`/`color`). -/
structure CollectionUpdates where
  name : Option String := none
  icon : Option (Option String) := none
  color : Option (Option String) := none
deriving Repr, DecidableEq

/-- `{ ...c, ...updates }` for collections. -/
def applyCollectionUpdates (c : Collection) (u : CollectionUpdates) : Collection :=
  { c with
    name := u.name.getD c.name
    icon := u.icon.getD c.icon
    color := u.color.getD c.color }

/-- `Partial<Tag>` as passed to `updateTag`. -/
structure TagUpdates where
  name : Option String := none
  color : Option String := none
deriving Repr, DecidableEq

/-- `{ ...t, ...updates }` for tags. -/
def applyTagUpdates (t : Tag) (u : TagUpdates) : Tag :=
  { t with name := u.name.getD t.name, color := u.color.getD t.color }

/-- The argument of `addBookmark`:
`Omit<Bookmark, 'id' | 'createdAt' | 'updatedAt' | 'isTrashed' | 'isArchived'>`
with `isPinned` optional (`bookmark.isPinned ?? false`). -/
structure NewBookmark where
  title : String
  url : String
  description : Option String := none
  favicon : Option String := none
  thumbnail : Option String := none
  collectionId : String
  tags : List String
  isFavorite : Bool
  isPinned : Option Bool := none
deriving Repr, DecidableEq

/-! ## Store actions (optimistic update + rollback on remote failure)

Each action mirrors the corresponding zustand action.  `generateId()`
(a fresh UUID) and `new Date().toISOString()` are modelled as explicit
`id`/`now` parameters.  A remote write happens when `env.remoteActive`,
and its failure branch runs when `env.remoteFails`. -/

/-- `addBookmark` (store lines 383-421). -/
def addBookmark (env : Env) (id : String) (now : Nat) (bookmark : NewBookmark)
    (s : StoreState) : StoreState :=
  if env.demo then s
  else
    let newBookmark : Bookmark :=
      { id := id
        title := bookmark.title
        url := bookmark.url
        description := bookmark.description
        favicon := bookmark.favicon
        thumbnail := bookmark.thumbnail
        collectionId := bookmark.collectionId
        tags := bookmark.tags
        isFavorite := bookmark.isFavorite
        isArchived := false
        isTrashed := false
        isPinned := bookmark.isPinned.getD false
        createdAt := now
        updatedAt := now }
    let s1 := { s with bookmarks := s.bookmarks ++ [newBookmark] }
    if env.remoteActive ∧ env.remoteFails then
      { s1 with bookmarks := s1.bookmarks.filter (fun b => b.id ≠ id) }
    else s1

/-- `updateBookmark` (store lines 423-455). -/
def updateBookmark (env : Env) (id : String) (now : Nat) (updates : BookmarkUpdates)
    (s : StoreState) : StoreState :=
  if env.demo then s
  else
    let previousBookmark := s.bookmarks.find? (fun b => b.id = id)
    let s1 := { s with
      bookmarks := s.bookmarks.map (fun b =>
        if b.id = id then applyBookmarkUpdates b updates now else b) }
    if env.remoteActive ∧ env.remoteFails then
      match previousBookmark with
      | some pb =>
          { s1 with bookmarks := s1.bookmarks.map (fun b => if b.id = id then pb else b) }
      | none => s1
    else s1

/-- `deleteBookmark` (store lines 457-482). -/
def deleteBookmark (env : Env) (id : String) (s : StoreState) : StoreState :=
  if env.demo then s
  else
    let deletedBookmark := s.bookmarks.find? (fun b => b.id = id)
    let s1 := { s with bookmarks := s.bookmarks.filter (fun b => b.id ≠ id) }
    if env.remoteActive ∧ env.remoteFails then
      match deletedBookmark with
      | some db => { s1 with bookmarks := s1.bookmarks ++ [db] }
      | none => s1
    else s1

/-- `toggleFavorite` (store lines 484-490): looks the bookmark up first and
only then checks demo mode. -/
def toggleFavorite (env : Env) (id : String) (now : Nat) (s : StoreState) : StoreState :=
  match s.bookmarks.find? (fun b => b.id = id) with
  | some bookmark =>
      if env.demo then s
      else updateBookmark env id now { isFavorite := some (!bookmark.isFavorite) } s
  | none => s

/-- `toggleArchive` (store lines 492-498). -/
def toggleArchive (env : Env) (id : String) (now : Nat) (s : StoreState) : StoreState :=
  match s.bookmarks.find? (fun b => b.id = id) with
  | some bookmark =>
      if env.demo then s
      else updateBookmark env id now { isArchived := some (!bookmark.isArchived) } s
  | none => s

/-- `togglePin` (store lines 500-506). -/
def togglePin (env : Env) (id : String) (now : Nat) (s : StoreState) : StoreState :=
  match s.bookmarks.find? (fun b => b.id = id) with
  | some bookmark =>
      if env.demo then s
      else updateBookmark env id now { isPinned := some (!bookmark.isPinned) } s
  | none => s

/-- `moveToTrash` (store lines 508-511). -/
def moveToTrash (env : Env) (id : String) (now : Nat) (s : StoreState) : StoreState :=
  if env.demo then s
  else updateBookmark env id now { isTrashed := some true } s

/-- `restoreFromTrash` (store lines 513-516). -/
def restoreFromTrash (env : Env) (id : String) (now : Nat) (s : StoreState) : StoreState :=
  if env.demo then s
  else updateBookmark env id now { isTrashed := some false } s

/-- `permanentlyDelete` (store lines 518-521). -/
def permanentlyDelete (env : Env) (id : String) (s : StoreState) : StoreState :=
  if env.demo then s
  else deleteBookmark env id s

/-- `emptyTrash` (store lines 523-550). -/
def emptyTrash (env : Env) (s : StoreState) : StoreState :=
  if env.demo then s
  else
    let trashedBookmarks := s.bookmarks.filter (fun b => b.isTrashed)
    if trashedBookmarks.length = 0 then s
    else
      let s1 := { s with bookmarks := s.bookmarks.filter (fun b => ¬ b.isTrashed) }
      if env.remoteActive ∧ env.remoteFails then
        { s1 with bookmarks := s1.bookmarks ++ trashedBookmarks }
      else s1

/-- `addCollection` (store lines 553-580); returns the generated id (in demo
mode a dummy id is returned without touching state). -/
def addCollection (env : Env) (id : String) (name : String) (icon : Option String)
    (color : Option String) (s : StoreState) : String × StoreState :=
  if env.demo then (id, s)
  else
    let newCollection : Collection :=
      { id := id, name := name, icon := icon, color := color, isSystem := false }
    let s1 := { s with collections := s.collections ++ [newCollection] }
    if env.remoteActive ∧ env.remoteFails then
      (id, { s1 with collections := s1.collections.filter (fun c => c.id ≠ id) })
    else (id, s1)

/-- `updateCollection` (store lines 582-609): the optimistic update skips
system collections; the rollback maps by id only. -/
def updateCollection (env : Env) (id : String) (updates : CollectionUpdates)
    (s : StoreState) : StoreState :=
  if env.demo then s
  else
    let previousCollection := s.collections.find? (fun c => c.id = id)
    let s1 := { s with
      collections := s.collections.map (fun c =>
        if c.id = id ∧ ¬ c.isSystem then applyCollectionUpdates c updates else c) }
    if env.remoteActive ∧ env.remoteFails then
      match previousCollection with
      | some pc =>
          { s1 with collections := s1.collections.map (fun c => if c.id = id then pc else c) }
      | none => s1
    else s1

/-- `deleteCollection` (store lines 611-636): note the filter
`c.id !== id && !c.isSystem`, and that the rollback restores only the
deleted collection, not the re-assigned bookmarks. -/
def deleteCollection (env : Env) (id : String) (s : StoreState) : StoreState :=
  if env.demo then s
  else
    let deletedCollection := s.collections.find? (fun c => c.id = id)
    let s1 := { s with
      collections := s.collections.filter (fun c => c.id ≠ id ∧ ¬ c.isSystem)
      bookmarks := s.bookmarks.map (fun b =>
        if b.collectionId = id then { b with collectionId := "unsorted" } else b) }
    if env.remoteActive ∧ env.remoteFails then
      match deletedCollection with
      | some dc => { s1 with collections := s1.collections ++ [dc] }
      | none => s1
    else s1

/-- `addTag` (store lines 639-662). -/
def addTag (env : Env) (id : String) (name : String) (color : String)
    (s : StoreState) : StoreState :=
  if env.demo then s
  else
    let newTag : Tag := { id := id, name := name, color := color }
    let s1 := { s with tags := s.tags ++ [newTag] }
    if env.remoteActive ∧ env.remoteFails then
      { s1 with tags := s1.tags.filter (fun t => t.id ≠ id) }
    else s1

/-- `updateTag` (store lines 664-689). -/
def updateTag (env : Env) (id : String) (updates : TagUpdates)
    (s : StoreState) : StoreState :=
  if env.demo then s
  else
    let previousTag := s.tags.find? (fun t => t.id = id)
    let s1 := { s with
      tags := s.tags.map (fun t => if t.id = id then applyTagUpdates t updates else t) }
    if env.remoteActive ∧ env.remoteFails then
      match previousTag with
      | some pt => { s1 with tags := s1.tags.map (fun t => if t.id = id then pt else t) }
      | none => s1
    else s1

/-- `deleteTag` (store lines 691-717): the rollback restores only the tag
list, not the bookmarks' detached tag sets. -/
def deleteTag (env : Env) (id : String) (s : StoreState) : StoreState :=
  if env.demo then s
  else
    let deletedTag := s.tags.find? (fun t => t.id = id)
    let s1 := { s with
      tags := s.tags.filter (fun t => t.id ≠ id)
      bookmarks := s.bookmarks.map (fun b =>
        { b with tags := b.tags.filter (fun t => t ≠ id) }) }
    if env.remoteActive ∧ env.remoteFails then
      match deletedTag with
      | some dt => { s1 with tags := s1.tags ++ [dt] }
      | none => s1
    else s1

/-! ## Realtime merge handlers (store lines 732-787); they perform no demo
check and issue no remote write. -/

/-- `addBookmarkFromRemote`. -/
def addBookmarkFromRemote (bookmark : Bookmark) (s : StoreState) : StoreState :=
  if s.bookmarks.any (fun b => b.id = bookmark.id) then s
  else { s with bookmarks := s.bookmarks ++ [bookmark] }

/-- `updateBookmarkFromRemote`. -/
def updateBookmarkFromRemote (id : String) (bookmark : Bookmark) (s : StoreState) :
    StoreState :=
  { s with bookmarks := s.bookmarks.map (fun b => if b.id = id then bookmark else b) }

/-- `deleteBookmarkFromRemote`. -/
def deleteBookmarkFromRemote (id : String) (s : StoreState) : StoreState :=
  { s with bookmarks := s.bookmarks.filter (fun b => b.id ≠ id) }

/-- `addCollectionFromRemote`. -/
def addCollectionFromRemote (collection : Collection) (s : StoreState) : StoreState :=
  if s.collections.any (fun c => c.id = collection.id) then s
  else { s with collections := s.collections ++ [collection] }

/-- `updateCollectionFromRemote`. -/
def updateCollectionFromRemote (id : String) (collection : Collection) (s : StoreState) :
    StoreState :=
  { s with collections := s.collections.map (fun c => if c.id = id then collection else c) }

/-- `deleteCollectionFromRemote` (store lines 761-767): same filter
`c.id !== id && !c.isSystem` as `deleteCollection`. -/
def deleteCollectionFromRemote (id : String) (s : StoreState) : StoreState :=
  { s with
    collections := s.collections.filter (fun c => c.id ≠ id ∧ ¬ c.isSystem)
    bookmarks := s.bookmarks.map (fun b =>
      if b.collectionId = id then { b with collectionId := "unsorted" } else b) }

/-- `addTagFromRemote`. -/
def addTagFromRemote (tag : Tag) (s : StoreState) : StoreState :=
  if s.tags.any (fun t => t.id = tag.id) then s
  else { s with tags := s.tags ++ [tag] }

/-- `updateTagFromRemote`. -/
def updateTagFromRemote (id : String) (tag : Tag) (s : StoreState) : StoreState :=
  { s with tags := s.tags.map (fun t => if t.id = id then tag else t) }

/-- `deleteTagFromRemote`. -/
def deleteTagFromRemote (id : String) (s : StoreState) : StoreState :=
  { s with
    tags := s.tags.filter (fun t => t.id ≠ id)
    bookmarks := s.bookmarks.map (fun b =>
      { b with tags := b.tags.filter (fun t => t ≠ id) }) }

/-! ## Import committer (src/components/bookmarks/ImportBookmarksDialog.tsx)

`handleImport` closes over `existingUrls` (the normalized URLs of the
bookmarks present when the run starts) and over a JS `Map` used as the
folder→collection-id resolution map.  Progress reporting and the
inter-batch pause are UI-only and have no effect on the resulting state.
Fresh ids from `generateId()` are modelled by a threaded counter. -/

/-- A parsed record as produced by the parser and consumed by the committer. -/
structure ParsedBookmark where
  url : String
  title : String
  addDate : Option Int := none
  folder : Option String := none
deriving Repr, DecidableEq

/-- JS `Map.get` (first matching binding). -/
def mapGet (m : List (String × String)) (k : String) : Option String :=
  (m.find? (fun kv => kv.1 = k)).map (fun kv => kv.2)

/-- JS `Map.has`. -/
def mapHas (m : List (String × String)) (k : String) : Bool :=
  m.any (fun kv => kv.1 = k)

/-- JS `Map.set`: replace the existing binding in place, else append. -/
def mapSet (m : List (String × String)) (k v : String) : List (String × String) :=
  if mapHas m k then m.map (fun kv => if kv.1 = k then (k, v) else kv)
  else m ++ [(k, v)]

/-- `existingUrls` (dialog line 56): normalized URLs of the bookmarks in the
store when the run starts (a JS `Set`, modelled as a list with `contains`). -/
def existingUrls (s : StoreState) : List String :=
  s.bookmarks.map (fun b => normalizeUrl b.url)

/-- `bookmark.folder.split('/').pop() || ''`. -/
def lastSegment (f : String) : String :=
  ((f.splitOn "/").getLast?).getD ""

/-- Fresh collection/bookmark ids for an import run (models `generateId()`). -/
def importId (n : Nat) : String :=
  "import-id-" ++ toString n

/-- The per-batch collection pass (dialog lines 117-131): ensure every
referenced leaf folder has a collection, registering new ids in the map. -/
def processBatchCollections (env : Env) : List ParsedBookmark →
    List (String × String) → StoreState → Nat →
    List (String × String) × StoreState × Nat
  | [], folderMap, s, ctr => (folderMap, s, ctr)
  | bookmark :: rest, folderMap, s, ctr =>
      match bookmark.folder with
      | some f =>
          let folderName := lastSegment f
          if folderName ≠ "" ∧ ¬ mapHas folderMap (lowerStr folderName) then
            let r := addCollection env (importId ctr) folderName (some "folder") none s
            processBatchCollections env rest (mapSet folderMap (lowerStr folderName) r.1) r.2 (ctr + 1)
          else processBatchCollections env rest folderMap s ctr
      | none => processBatchCollections env rest folderMap s ctr

/-- The per-batch bookmark pass (dialog lines 134-154): insert each record,
resolving its collection by lower-cased leaf folder name or `unsorted`. -/
def processBatchBookmarks (env : Env) (now : Nat) : List ParsedBookmark →
    List (String × String) → StoreState → Nat → StoreState × Nat
  | [], _, s, ctr => (s, ctr)
  | parsed :: rest, folderMap, s, ctr =>
      let folderName :=
        match parsed.folder with
        | some f => lowerStr (lastSegment f)
        | none => ""
      let collectionId :=
        if folderName ≠ "" then
          match mapGet folderMap folderName with
          | some v => if v = "" then "unsorted" else v
          | none => "unsorted"
        else "unsorted"
      let s1 := addBookmark env (importId ctr) now
        { url := parsed.url
          title := parsed.title
          description := none
          thumbnail := none
          collectionId := collectionId
          tags := []
          isFavorite := false
          favicon := some (getFaviconUrl parsed.url) } s
      processBatchBookmarks env now rest folderMap s1 (ctr + 1)

/-- The batch loop (dialog lines 113-160): slices of 10, collections pass
then bookmarks pass, the folder map persisting across batches. -/
def runBatches (env : Env) (now : Nat) : List ParsedBookmark →
    List (String × String) → StoreState → Nat → StoreState
  | remaining, folderMap, s, ctr =>
      if h : remaining = [] then s
      else
        let batch := remaining.take 10
        let r1 := processBatchCollections env batch folderMap s ctr
        let r2 := processBatchBookmarks env now batch r1.1 r1.2.1 r1.2.2
        runBatches env now (remaining.drop 10) r1.1 r2.1 r2.2
termination_by remaining => remaining.length
decreasing_by
  simp only [List.length_drop]
  cases remaining with
  | nil => exact absurd rfl h
  | cons a l => simp; omega

/-- `handleImport` (dialog lines 96-169): compute the working set from
`skipDuplicates` and `existingUrls`, seed the folder map from the existing
collections (keyed by lower-cased name), and run the batches. -/
def handleImport (env : Env) (now : Nat) (skipDuplicates : Bool)
    (parsedBookmarks : List ParsedBookmark) (s : StoreState) (ctr : Nat) : StoreState :=
  let toImport :=
    if skipDuplicates then
      parsedBookmarks.filter (fun b => ¬ (existingUrls s).contains (normalizeUrl b.url))
    else parsedBookmarks
  let folderMap := s.collections.foldl (fun m c => mapSet m (lowerStr c.name) c.id) []
  runBatches env now toImport folderMap s ctr

/-! ## Import parser (src/lib/bookmark-parser.ts `parseBookmarkHtml`)

`DOMParser.parseFromString` is platform code: it is error-tolerant and
never throws on HTML input.  Its output is modelled as an abstract element
tree (`Elem`), with `textContent` abstracted into a per-element string and
attribute names stored lowercase as the DOM does for HTML. -/

/-- An element of the parsed DOM tree. -/
inductive Elem : Type where
  | node : String → List (String × String) → String → List Elem → Elem

/-- The element's tag name. -/
def Elem.tag : Elem → String
  | .node t _ _ _ => t

/-- The element's attributes (names lowercase, as stored by the DOM). -/
def Elem.attrs : Elem → List (String × String)
  | .node _ a _ _ => a

/-- The element's `textContent`. -/
def Elem.text : Elem → String
  | .node _ _ x _ => x

/-- The element's child elements. -/
def Elem.children : Elem → List Elem
  | .node _ _ _ c => c

/-- `getAttribute(name)`: case-insensitive lookup. -/
def getAttr (e : Elem) (name : String) : Option String :=
  (e.attrs.find? (fun kv => kv.1 = lowerStr name)).map (fun kv => kv.2)

/-- `querySelector(':scope > T')`: first direct child with the given tag. -/
def firstChildWithTag (e : Elem) (t : String) : Option Elem :=
  e.children.find? (fun c => c.tag = t)

/-- The children of an element are structurally smaller than the element. -/
theorem sizeOf_children_lt_elem (e : Elem) : sizeOf e.children < sizeOf e := by
  cases e with
  | node t a x c => simp [Elem.children]

/-- `doc.querySelector('DL')`: first `DL` element in document order. -/
def findFirstDL : List Elem → Option Elem
  | [] => none
  | e :: rest =>
      if e.tag = "DL" then some e
      else
        match findFirstDL e.children with
        | some d => some d
        | none => findFirstDL rest
termination_by cs => sizeOf cs
decreasing_by
  · have := sizeOf_children_lt_elem e
    simp only [List.cons.sizeOf_spec]
    omega
  · simp only [List.cons.sizeOf_spec]
    omega

/-- JS `parseInt(s, 10)`: optional sign then a digit prefix; `NaN` (here
`none`) when no digit follows. -/
def parseIntPrefix (s : String) : Option Int :=
  let core := fun (sign : Int) (cs : List Char) =>
    let digits := cs.takeWhile Char.isDigit
    if digits = [] then none
    else some (sign * Int.ofNat (digits.foldl (fun n c => n * 10 + (c.toNat - 48)) 0))
  match s.data with
  | '-' :: cs => core (-1) cs
  | '+' :: cs => core 1 cs
  | cs => core 1 cs

/-- The mutable parse accumulators (`bookmarks`, `folders`; `errors` is only
touched outside the traversal). -/
structure ParseAcc where
  bookmarks : List ParsedBookmark
  folders : List String
deriving Repr, DecidableEq

/-- `folders.add` (a JS `Set`): append if absent, keeping insertion order. -/
def addFolder (fs : List String) (f : String) : List String :=
  if fs.contains f then fs else fs ++ [f]

mutual

/-- `traverseDL` (parser lines 43-98): walk a `DL`'s children. -/
def traverseDL (limit : Nat) (dl : Elem) (stack : List String) (acc : ParseAcc) :
    ParseAcc :=
  traverseChildren limit dl.children stack acc
termination_by sizeOf dl
decreasing_by
  have := sizeOf_children_lt_elem dl
  omega

/-- The `for` loop over a `DL`'s children, with the `break` once the limit
is reached (every loop level re-checks it, so the stop is global). -/
def traverseChildren (limit : Nat) (cs : List Elem) (stack : List String)
    (acc : ParseAcc) : ParseAcc :=
  match cs with
  | [] => acc
  | child :: rest =>
      if limit ≤ acc.bookmarks.length then acc
      else
        let acc1 :=
          if child.tag = "DT" then
            match firstChildWithTag child "H3" with
            | some h3 =>
                let folderName := if h3.text.trim = "" then "Unnamed Folder" else h3.text.trim
                let stack1 := stack ++ [folderName]
                let acc' := { acc with
                  folders := addFolder acc.folders (String.intercalate "/" stack1) }
                match h : firstChildWithTag child "DL" with
                | some nestedDL => traverseDL limit nestedDL stack1 acc'
                | none => acc'
            | none =>
                match firstChildWithTag child "A" with
                | some anchor =>
                    let url := getAttr anchor "href"
                    let title :=
                      if anchor.text.trim ≠ "" then anchor.text.trim
                      else match url with
                        | some u => if u ≠ "" then u else "Untitled"
                        | none => "Untitled"
                    let addDateAttr := getAttr anchor "ADD_DATE"
                    match url with
                    | some u =>
                        if isValidUrl u then
                          let addDate :=
                            match addDateAttr with
                            | some a => (parseIntPrefix a).map (fun ts => ts * 1000)
                            | none => none
                          { acc with bookmarks := acc.bookmarks ++
                              [{ url := u, title := title, addDate := addDate,
                                 folder := if stack.length > 0 then
                                     some (String.intercalate "/" stack)
                                   else none }] }
                        else acc
                    | none => acc
                | none => acc
          else if child.tag = "DL" then
            traverseDL limit child stack acc
          else acc
        traverseChildren limit rest stack acc1
termination_by sizeOf cs
decreasing_by
  · have hm : nestedDL ∈ e.children :=
      List.mem_of_find?_eq_some (by simpa [firstChildWithTag] using h)
    have h1 : sizeOf nestedDL < sizeOf e.children := List.sizeOf_lt_of_mem hm
    have h2 : sizeOf e.children < sizeOf e := sizeOf_children_lt_elem e
    simp only [List.cons.sizeOf_spec]
    omega
  · simp only [List.cons.sizeOf_spec]
    omega
  · simp only [List.cons.sizeOf_spec]
    omega

end

/-- The result record of `parseBookmarkHtml`. -/
structure ParseResult where
  bookmarks : List ParsedBookmark
  folders : List String
  errors : List String
deriving Repr, DecidableEq

/-- The truncation warning (parser line 109). -/
def limitMessage (limit : Nat) : String :=
  "Import limit of " ++ toString limit ++
    " bookmarks reached. Some bookmarks may have been skipped."

/-- The no-structure error (parser line 105). -/
def noStructureMessage : String :=
  "No bookmark structure found in the file"

/-- `parseBookmarkHtml` (parser lines 29-121) over a parsed DOM `doc`:
traverse from the first `DL` if any, else record the single structure
error; append the truncation warning when the limit was hit. -/
def parseBookmarkHtml (doc : List Elem) (limit : Nat) : ParseResult :=
  let (acc, errors0) :=
    match findFirstDL doc with
    | some rootDL => (traverseDL limit rootDL [] { bookmarks := [], folders := [] }, [])
    | none => ({ bookmarks := [], folders := [] }, [noStructureMessage])
  let errors :=
    if acc.bookmarks.length = limit then errors0 ++ [limitMessage limit]
    else errors0
  { bookmarks := acc.bookmarks, folders := acc.folders, errors := errors }

/-! ## Concrete fixtures used by witnesses and counterexamples -/

/-- A session with no configured remote backend, demo mode off. -/
def envLocal : Env := { demo := false, remoteActive := false, remoteFails := false }

/-- A session whose remote writes all fail, demo mode off. -/
def envFailing : Env := { demo := false, remoteActive := true, remoteFails := true }

/-- A session with demo mode on. -/
def envDemo : Env := { demo := true, remoteActive := false, remoteFails := false }

/-- A sample bookmark living in collection `c1` and tagged `t1`. -/
def sampleBookmark : Bookmark :=
  { id := "b1", title := "Ex", url := "http://e.com/x", collectionId := "c1",
    tags := ["t1"], isFavorite := false, isArchived := false, isTrashed := false,
    isPinned := false, createdAt := 0, updatedAt := 0 }

/-- A sample store state: the system collections, one user collection
`c1` (\"Reading\"), one tag `t1`, one bookmark. -/
def sampleState : StoreState :=
  { bookmarks := [sampleBookmark]
    collections := defaultCollections ++ [{ id := "c1", name := "Reading" }]
    tags := [{ id := "t1", name := "T", color := "#fff" }] }

/-! ## Helper lemmas -/

/-- Mapping a function that fixes every element of a list is the identity. -/
theorem map_id_of_mem {α : Type} (f : α → α) :
    ∀ l : List α, (∀ a ∈ l, f a = a) → l.map f = l := by
  intro l h
  induction l with
  | nil => rfl
  | cons a l ih =>
      simp only [List.map_cons, h a (by simp)]
      rw [ih (fun b hb => h b (by simp [hb]))]

/-- Appending a fresh element and filtering it away restores the list. -/
theorem filter_append_fresh {α : Type} (p : α → Bool) (l : List α) (x : α)
    (hl : ∀ a ∈ l, p a = true) (hx : p x = false) : (l ++ [x]).filter p = l := by
  rw [List.filter_append, List.filter_eq_self.mpr hl]
  simp [hx]

/-- When no element has the searched key, a keyed conditional map is the
identity. -/
theorem map_keyed_noop {α : Type} (key : α → String) (id : String) (g : α → α)
    (hg1 : ∀ a, key a ≠ id → g a = a) (l : List α)
    (hf : l.find? (fun a => key a = id) = none) : l.map g = l := by
  apply map_id_of_mem
  intro a ha
  have := List.find?_eq_none.mp hf a ha
  exact hg1 a (by simpa using this)

/-- Rolling an in-place keyed update back by re-inserting the previously
found element restores the list, provided keys are duplicate-free and the
update preserves keys. -/
theorem map_keyed_rollback {α : Type} (key : α → String) (id : String) (g : α → α)
    (hg1 : ∀ a, key a ≠ id → g a = a) (hg2 : ∀ a, key (g a) = key a)
    (pb : α) (l : List α) (hnd : (l.map key).Nodup)
    (hf : l.find? (fun a => key a = id) = some pb) :
    (l.map g).map (fun a => if key a = id then pb else a) = l := by
  have hmem : pb ∈ l := List.mem_of_find?_eq_some hf
  have hkey : key pb = id := by simpa using List.find?_some hf
  have huniq : ∀ b ∈ l, key b = id → b = pb := fun b hb hbid =>
    List.inj_on_of_nodup_map hnd hb hmem (by rw [hbid, hkey])
  rw [List.map_map]
  apply map_id_of_mem
  intro b hb
  by_cases hbid : key b = id
  · simp only [Function.comp_apply]
    rw [show key (g b) = id from (hg2 b).trans hbid, if_pos rfl, huniq b hb hbid]
  · simp only [Function.comp_apply]
    rw [hg1 b hbid, if_neg hbid]

/-- The bookmark list after `deleteCollection` (demo off) is exactly the
pointwise reassignment of the deleted collection's members to `unsorted`,
on both the success and the rollback path. -/
theorem deleteCollection_bookmarks (env : Env) (cid : String) (s : StoreState)
    (hd : env.demo = false) :
    (deleteCollection env cid s).bookmarks =
      s.bookmarks.map (fun b =>
        if b.collectionId = cid then { b with collectionId := "unsorted" } else b) := by
  unfold deleteCollection
  rw [hd]
  by_cases hr : env.remoteActive ∧ env.remoteFails
  · simp only [Bool.false_eq_true, if_false, hr, if_true]
    cases s.collections.find? (fun c => c.id = cid) <;> rfl
  · simp only [Bool.false_eq_true, if_false, hr, if_false]

/-- The bookmark list after `deleteTag` (demo off) is exactly the pointwise
detachment of the tag, on both the success and the rollback path. -/
theorem deleteTag_bookmarks (env : Env) (tid : String) (s : StoreState)
    (hd : env.demo = false) :
    (deleteTag env tid s).bookmarks =
      s.bookmarks.map (fun b => { b with tags := b.tags.filter (fun t => t ≠ tid) }) := by
  unfold deleteTag
  rw [hd]
  by_cases hr : env.remoteActive ∧ env.remoteFails
  · simp only [Bool.false_eq_true, if_false, hr, if_true]
    cases s.tags.find? (fun t => t.id = tid) <;> rfl
  · simp only [Bool.false_eq_true, if_false, hr, if_false]

/-! ## Claim theorems -/

/-- C2: the claim would say the system collections `all` and `unsorted`
survive every `deleteCollection`; the code's filter
`c.id !== id && !c.isSystem` removes them instead.  Evaluated at the
initial state and an id that is not even present: both system collections
vanish. -/
theorem C2_system_collections_removed_by_deleteCollection :
    (deleteCollection envLocal "c9" initialState).collections = [] ∧
    initialState.collections.map Collection.id = ["all", "unsorted"] := by
  constructor <;> rfl

/-- C3: `deleteCollection` (demo off) removes no bookmark — the id sequence
of the bookmark list is unchanged — and every bookmark that was in the
deleted collection is in `unsorted` afterward, while all other bookmarks
are untouched. -/
theorem C3_deleteCollection_reassigns_bookmarks (env : Env) (cid : String)
    (s : StoreState) (hd : env.demo = false) :
    (deleteCollection env cid s).bookmarks.map Bookmark.id = s.bookmarks.map Bookmark.id ∧
    List.Forall₂ (fun b b' : Bookmark =>
        b'.id = b.id ∧ (b.collectionId = cid → b'.collectionId = "unsorted") ∧
          (b.collectionId ≠ cid → b' = b))
      s.bookmarks (deleteCollection env cid s).bookmarks := by
  rw [deleteCollection_bookmarks env cid s hd]
  constructor
  · rw [List.map_map]
    apply List.map_congr_left
    intro b _
    by_cases h : b.collectionId = cid <;> simp [h]
  · rw [List.forall₂_map_right_iff]
    rw [List.forall₂_same]
    intro b _
    by_cases h : b.collectionId = cid <;> simp [h]

/-- C3 witness: deleting the sample collection `c1` keeps the single
bookmark and moves it to `unsorted`. -/
theorem C3_witness :
    envLocal.demo = false ∧
    ((deleteCollection envLocal "c1" sampleState).bookmarks.map Bookmark.id =
        sampleState.bookmarks.map Bookmark.id ∧
      List.Forall₂ (fun b b' : Bookmark =>
          b'.id = b.id ∧ (b.collectionId = "c1" → b'.collectionId = "unsorted") ∧
            (b.collectionId ≠ "c1" → b' = b))
        sampleState.bookmarks (deleteCollection envLocal "c1" sampleState).bookmarks) :=
  ⟨rfl, C3_deleteCollection_reassigns_bookmarks envLocal "c1" sampleState rfl⟩

/-- C4: the claim would say a realtime delete event for an absent id is a
no-op; for collection events the handler's filter `c.id !== id && !c.isSystem`
still removes the system collections.  Evaluated at the initial state and
the absent id `ghost`: the state changes and the collection list empties. -/
theorem C4_remote_delete_event_not_noop :
    deleteCollectionFromRemote "ghost" initialState ≠ initialState ∧
    (deleteCollectionFromRemote "ghost" initialState).collections = [] := by
  constructor
  · decide
  · rfl

/-- C5: with demo mode on, every mutating store action returns the state
unchanged, for every argument. -/
theorem C5_demo_mode_disables_mutations (env : Env) (s : StoreState)
    (hd : env.demo = true) :
    (∀ id now nb, addBookmark env id now nb s = s) ∧
    (∀ id now u, updateBookmark env id now u s = s) ∧
    (∀ id, deleteBookmark env id s = s) ∧
    (∀ id now, toggleFavorite env id now s = s) ∧
    (∀ id now, toggleArchive env id now s = s) ∧
    (∀ id now, togglePin env id now s = s) ∧
    (∀ id now, moveToTrash env id now s = s) ∧
    (∀ id now, restoreFromTrash env id now s = s) ∧
    (∀ id, permanentlyDelete env id s = s) ∧
    emptyTrash env s = s ∧
    (∀ id name icon color, (addCollection env id name icon color s).2 = s) ∧
    (∀ id u, updateCollection env id u s = s) ∧
    (∀ id, deleteCollection env id s = s) ∧
    (∀ id name color, addTag env id name color s = s) ∧
    (∀ id u, updateTag env id u s = s) ∧
    (∀ id, deleteTag env id s = s) := by
  refine ⟨?_, ?_, ?_, ?_, ?_, ?_, ?_, ?_, ?_, ?_, ?_, ?_, ?_, ?_, ?_, ?_⟩
  · intro id now nb; simp [addBookmark, hd]
  · intro id now u; simp [updateBookmark, hd]
  · intro id; simp [deleteBookmark, hd]
  · intro id now
    unfold toggleFavorite
    cases s.bookmarks.find? (fun b => b.id = id) <;> simp [hd]
  · intro id now
    unfold toggleArchive
    cases s.bookmarks.find? (fun b => b.id = id) <;> simp [hd]
  · intro id now
    unfold togglePin
    cases s.bookmarks.find? (fun b => b.id = id) <;> simp [hd]
  · intro id now; simp [moveToTrash, hd]
  · intro id now; simp [restoreFromTrash, hd]
  · intro id; simp [permanentlyDelete, hd]
  · simp [emptyTrash, hd]
  · intro id name icon color; simp [addCollection, hd]
  · intro id u; simp [updateCollection, hd]
  · intro id; simp [deleteCollection, hd]
  · intro id name color; simp [addTag, hd]
  · intro id u; simp [updateTag, hd]
  · intro id; simp [deleteTag, hd]

/-- C5 witness: in demo mode, deleting the sample tag, bookmark and
collection all leave the sample state untouched. -/
theorem C5_witness :
    envDemo.demo = true ∧ deleteTag envDemo "t1" sampleState = sampleState ∧
      deleteBookmark envDemo "b1" sampleState = sampleState ∧
      deleteCollection envDemo "c1" sampleState = sampleState := by
  have h := C5_demo_mode_disables_mutations envDemo sampleState rfl
  exact ⟨rfl, h.2.2.2.2.2.2.2.2.2.2.2.2.2.2.2 "t1", h.2.2.1 "b1", h.2.2.2.2.2.2.2.2.2.2.2.2.1 "c1"⟩

/-- C9: `deleteTag` (demo off) removes no bookmark — the id sequence of the
bookmark list is unchanged — and afterward no bookmark's tag set contains
the deleted tag id. -/
theorem C9_deleteTag_detaches_only (env : Env) (tid : String) (s : StoreState)
    (hd : env.demo = false) :
    (deleteTag env tid s).bookmarks.map Bookmark.id = s.bookmarks.map Bookmark.id ∧
    ∀ b' ∈ (deleteTag env tid s).bookmarks, tid ∉ b'.tags := by
  rw [deleteTag_bookmarks env tid s hd]
  constructor
  · rw [List.map_map]
    apply List.map_congr_left
    intro b _
    rfl
  · intro b' hb'
    rcases List.mem_map.mp hb' with ⟨b, _, hb⟩
    rw [← hb]
    simp

/-- C9 witness: deleting the sample tag `t1` keeps the bookmark and leaves
its tag set without `t1`. -/
theorem C9_witness :
    envFailing.demo = false ∧
    ((deleteTag envFailing "t1" sampleState).bookmarks.map Bookmark.id =
        sampleState.bookmarks.map Bookmark.id ∧
      ∀ b' ∈ (deleteTag envFailing "t1" sampleState).bookmarks, "t1" ∉ b'.tags) :=
  ⟨rfl, C9_deleteTag_detaches_only envFailing "t1" sampleState rfl⟩

/-- C1 counterexample: rolling back a failed `deleteTag` does not restore
the pre-mutation state — the tag list is restored but the bookmark's
detached tag set is not, so the state differs bit-for-bit. -/
theorem C1_counterexample :
    deleteTag envFailing "t1" sampleState ≠ sampleState ∧
    (deleteTag envFailing "t1" sampleState).tags = sampleState.tags ∧
    (deleteTag envFailing "t1" sampleState).bookmarks.map (fun b => b.tags) = [[]] := by
  refine ⟨by decide, rfl, rfl⟩

/-- C1 amended: for the add and update actions the rollback after a failed
remote write restores the pre-mutation state exactly (given the generated
id is fresh for adds, and duplicate-free entity ids for updates); the
delete actions (`deleteBookmark`, `deleteCollection`, `deleteTag`,
`emptyTrash`) re-append the deleted records and do not undo cascaded
changes, so they are excluded (see the counterexample). -/
theorem C1_amended_rollback_exact_for_add_update (env : Env) (s : StoreState)
    (hd : env.demo = false) (ha : env.remoteActive = true) (hf : env.remoteFails = true)
    (hbn : (s.bookmarks.map Bookmark.id).Nodup)
    (hcn : (s.collections.map Collection.id).Nodup)
    (htn : (s.tags.map Tag.id).Nodup) :
    (∀ id now nb, (∀ b ∈ s.bookmarks, b.id ≠ id) → addBookmark env id now nb s = s) ∧
    (∀ id now u, updateBookmark env id now u s = s) ∧
    (∀ id name icon color, (∀ c ∈ s.collections, c.id ≠ id) →
      (addCollection env id name icon color s).2 = s) ∧
    (∀ id u, updateCollection env id u s = s) ∧
    (∀ id name color, (∀ t ∈ s.tags, t.id ≠ id) → addTag env id name color s = s) ∧
    (∀ id u, updateTag env id u s = s) := by
  refine ⟨?_, ?_, ?_, ?_, ?_, ?_⟩
  · intro id now nb hfresh
    unfold addBookmark
    rw [hd, ha, hf]
    simp only [Bool.false_eq_true, if_false, and_self, if_true]
    refine StoreState.ext ?_ rfl rfl
    dsimp only
    exact filter_append_fresh _ _ _ (fun b hb => by simpa using hfresh b hb) (by simp)
  · intro id now u
    unfold updateBookmark
    rw [hd, ha, hf]
    simp only [Bool.false_eq_true, if_false, and_self, if_true]
    cases hfind : s.bookmarks.find? (fun b => b.id = id) with
    | none =>
        dsimp only
        refine StoreState.ext ?_ rfl rfl
        dsimp only
        exact map_keyed_noop Bookmark.id id _ (fun b hb => if_neg hb) s.bookmarks hfind
    | some pb =>
        dsimp only
        refine StoreState.ext ?_ rfl rfl
        dsimp only
        exact map_keyed_rollback Bookmark.id id _ (fun b hb => if_neg hb)
          (fun b => by split <;> rfl)
          pb s.bookmarks hbn hfind
  · intro id name icon color hfresh
    unfold addCollection
    rw [hd, ha, hf]
    simp only [Bool.false_eq_true, if_false, and_self, if_true]
    refine StoreState.ext rfl ?_ rfl
    dsimp only
    exact filter_append_fresh _ _ _ (fun c hc => by simpa using hfresh c hc) (by simp)
  · intro id u
    unfold updateCollection
    rw [hd, ha, hf]
    simp only [Bool.false_eq_true, if_false, and_self, if_true]
    cases hfind : s.collections.find? (fun c => c.id = id) with
    | none =>
        dsimp only
        refine StoreState.ext rfl ?_ rfl
        dsimp only
        exact map_keyed_noop Collection.id id _
          (fun c hc => by simp [hc]) s.collections hfind
    | some pc =>
        dsimp only
        refine StoreState.ext rfl ?_ rfl
        dsimp only
        exact map_keyed_rollback Collection.id id _
          (fun c hc => by simp [hc])
          (fun c => by split <;> rfl)
          pc s.collections hcn hfind
  · intro id name color hfresh
    unfold addTag
    rw [hd, ha, hf]
    simp only [Bool.false_eq_true, if_false, and_self, if_true]
    refine StoreState.ext rfl rfl ?_
    dsimp only
    exact filter_append_fresh _ _ _ (fun t ht => by simpa using hfresh t ht) (by simp)
  · intro id u
    unfold updateTag
    rw [hd, ha, hf]
    simp only [Bool.false_eq_true, if_false, and_self, if_true]
    cases hfind : s.tags.find? (fun t => t.id = id) with
    | none =>
        dsimp only
        refine StoreState.ext rfl rfl ?_
        dsimp only
        exact map_keyed_noop Tag.id id _ (fun t ht => if_neg ht) s.tags hfind
    | some pt =>
        dsimp only
        refine StoreState.ext rfl rfl ?_
        dsimp only
        exact map_keyed_rollback Tag.id id _ (fun t ht => if_neg ht)
          (fun t => by split <;> rfl)
          pt s.tags htn hfind

/-- C1 amended witness: a failed `updateBookmark` and a failed fresh
`addBookmark` on the sample state both roll back to exactly the sample
state. -/
theorem C1_amended_witness :
    (sampleState.bookmarks.map Bookmark.id).Nodup ∧
    updateBookmark envFailing "b1" 5 { isFavorite := some true } sampleState = sampleState ∧
    addBookmark envFailing "fresh" 5
      { title := "N", url := "http://n.com", collectionId := "unsorted",
        tags := [], isFavorite := false } sampleState = sampleState := by
  have h := C1_amended_rollback_exact_for_add_update envFailing sampleState rfl rfl rfl
    (by decide) (by decide) (by decide)
  exact ⟨by decide, h.2.1 "b1" 5 _, h.1 "fresh" 5 _ (by decide)⟩

/-! ## Import lemmas (C7, C10) -/

/-- The projection of a store bookmark the import theorems track. -/
def importedProjection (b : Bookmark) : String × String := (b.url, b.title)

/-- The matching projection of a parsed record. -/
def parsedProjection (p : ParsedBookmark) : String × String := (p.url, p.title)

/-- `addCollection` never touches the bookmark list. -/
theorem addCollection_bookmarks (env : Env) (id name : String) (icon color : Option String)
    (s : StoreState) : (addCollection env id name icon color s).2.bookmarks = s.bookmarks := by
  unfold addCollection
  split
  · rfl
  · split <;> rfl

/-- With demo off and a non-failing remote, `addBookmark` appends exactly one
bookmark carrying the given url and title. -/
theorem addBookmark_success (env : Env) (id : String) (now : Nat) (nb : NewBookmark)
    (s : StoreState) (hd : env.demo = false) (hf : env.remoteFails = false) :
    ∃ b : Bookmark, (addBookmark env id now nb s).bookmarks = s.bookmarks ++ [b] ∧
      b.url = nb.url ∧ b.title = nb.title := by
  unfold addBookmark
  rw [hd, hf]
  simp only [Bool.false_eq_true, if_false, and_false]
  exact ⟨_, rfl, rfl, rfl⟩

/-- The collections pass of a batch never touches the bookmark list. -/
theorem processBatchCollections_bookmarks (env : Env) :
    ∀ (batch : List ParsedBookmark) (fm : List (String × String)) (s : StoreState)
      (ctr : Nat), (processBatchCollections env batch fm s ctr).2.1.bookmarks = s.bookmarks := by
  intro batch
  induction batch with
  | nil => intro fm s ctr; rfl
  | cons p rest ih =>
      intro fm s ctr
      unfold processBatchCollections
      cases p.folder with
      | none => exact ih fm s ctr
      | some f =>
          dsimp only
          split
          · rw [ih]
            exact addCollection_bookmarks env _ _ _ _ s
          · exact ih fm s ctr

/-- The bookmarks pass of a batch appends one bookmark per record, in order,
carrying the record's url and title (demo off, remote not failing). -/
theorem processBatchBookmarks_spec (env : Env) (now : Nat)
    (hd : env.demo = false) (hf : env.remoteFails = false) :
    ∀ (batch : List ParsedBookmark) (fm : List (String × String)) (s : StoreState)
      (ctr : Nat), ∃ T : List Bookmark,
      (processBatchBookmarks env now batch fm s ctr).1.bookmarks = s.bookmarks ++ T ∧
      T.map importedProjection = batch.map parsedProjection := by
  intro batch
  induction batch with
  | nil => intro fm s ctr; exact ⟨[], by simp [processBatchBookmarks], rfl⟩
  | cons p rest ih =>
      intro fm s ctr
      unfold processBatchBookmarks
      dsimp only
      obtain ⟨b, hb, hburl, hbtitle⟩ := addBookmark_success env (importId ctr) now _ s hd hf
      obtain ⟨T, hT, hTmap⟩ := ih _ (addBookmark env (importId ctr) now _ s) (ctr + 1)
      refine ⟨b :: T, ?_, ?_⟩
      · rw [hT, hb, List.append_assoc]
        rfl
      · simp only [List.map_cons, hTmap, importedProjection, parsedProjection,
          hburl, hbtitle]

/-- The batch loop appends one bookmark per record of the working set, in
order, carrying the record's url and title. -/
theorem runBatches_spec (env : Env) (now : Nat)
    (hd : env.demo = false) (hf : env.remoteFails = false) :
    ∀ (n : Nat) (remaining : List ParsedBookmark), remaining.length ≤ n →
    ∀ (fm : List (String × String)) (s : StoreState) (ctr : Nat),
      ∃ T : List Bookmark,
        (runBatches env now remaining fm s ctr).bookmarks = s.bookmarks ++ T ∧
        T.map importedProjection = remaining.map parsedProjection := by
  intro n
  induction n with
  | zero =>
      intro remaining hlen fm s ctr
      have : remaining = [] := List.length_eq_zero.mp (Nat.le_zero.mp hlen)
      rw [this, runBatches]
      exact ⟨[], by simp, rfl⟩
  | succ n ih =>
      intro remaining hlen fm s ctr
      rw [runBatches]
      by_cases hre : remaining = []
      · rw [dif_pos hre, hre]
        exact ⟨[], by simp, rfl⟩
      · rw [dif_neg hre]
        dsimp only
        obtain ⟨Tb, hTb, hTbmap⟩ := processBatchBookmarks_spec env now hd hf
          (remaining.take 10) _ _ _
        obtain ⟨T2, hT2, hT2map⟩ := ih (remaining.drop 10)
          (by
            have hpos : 0 < remaining.length := List.length_pos.mpr hre
            simp only [List.length_drop]
            omega) _ _ _
        refine ⟨Tb ++ T2, ?_, ?_⟩
        · rw [hT2, hTb, processBatchCollections_bookmarks, List.append_assoc]
        · rw [List.map_append, hTbmap, hT2map, ← List.map_append, List.take_append_drop]

/-- C7: with `skipDuplicates = true` the committer only adds bookmarks whose
normalized URL is not among the normalized URLs of the bookmarks present
when the run started; with `skipDuplicates = false` every parsed record is
inserted (its url and title appended in order). -/
theorem C7_import_skip_duplicates (env : Env) (now : Nat)
    (parsedBookmarks : List ParsedBookmark) (s : StoreState) (ctr : Nat)
    (hd : env.demo = false) (hf : env.remoteFails = false) :
    (∀ b' ∈ (handleImport env now true parsedBookmarks s ctr).bookmarks,
        b' ∈ s.bookmarks ∨ (existingUrls s).contains (normalizeUrl b'.url) = false) ∧
    ((handleImport env now false parsedBookmarks s ctr).bookmarks.map importedProjection =
      s.bookmarks.map importedProjection ++ parsedBookmarks.map parsedProjection) := by
  constructor
  · intro b' hb'
    unfold handleImport at hb'
    obtain ⟨T, hT, hTmap⟩ := runBatches_spec env now hd hf _ _ (Nat.le_refl _) _ s ctr
    rw [hT, List.mem_append] at hb'
    rcases hb' with h | h
    · exact Or.inl h
    · right
      have : importedProjection b' ∈ T.map importedProjection :=
        List.mem_map_of_mem importedProjection h
      rw [hTmap] at this
      rcases List.mem_map.mp this with ⟨p, hp, hpeq⟩
      have hpurl : p.url = b'.url := congrArg Prod.fst hpeq
      have := List.of_mem_filter hp
      rw [← hpurl]
      simpa using this
  · unfold handleImport
    obtain ⟨T, hT, hTmap⟩ := runBatches_spec env now hd hf _ _ (Nat.le_refl _) _ s ctr
    rw [hT, List.map_append, hTmap]
    simp

/-- C7 witness: importing three records over the sample state with
`skipDuplicates` on and off. -/
theorem C7_witness :
    envLocal.demo = false ∧ envLocal.remoteFails = false ∧
    ((∀ b' ∈ (handleImport envLocal 7 true
          [{ url := "http://E.com/x/", title := "d" },
           { url := "http://n.com/a", title := "n1" },
           { url := "http://n.com/a", title := "n2" }] sampleState 0).bookmarks,
        b' ∈ sampleState.bookmarks ∨
          (existingUrls sampleState).contains (normalizeUrl b'.url) = false) ∧
      ((handleImport envLocal 7 false
          [{ url := "http://E.com/x/", title := "d" },
           { url := "http://n.com/a", title := "n1" },
           { url := "http://n.com/a", title := "n2" }] sampleState 0).bookmarks.map
            importedProjection =
        sampleState.bookmarks.map importedProjection ++
          [{ url := "http://E.com/x/", title := "d" },
           { url := "http://n.com/a", title := "n1" },
           { url := "http://n.com/a", title := "n2" }].map parsedProjection)) :=
  ⟨rfl, rfl, C7_import_skip_duplicates envLocal 7 _ sampleState 0 rfl rfl⟩

/-- C10: with `skipDuplicates = true` the working set is the pre-filter of
the parsed records against the start-of-run store only: every surviving
record — including in-file duplicates of one another — is inserted exactly
once, in order. -/
theorem C10_no_dedup_within_working_set (env : Env) (now : Nat)
    (parsedBookmarks : List ParsedBookmark) (s : StoreState) (ctr : Nat)
    (hd : env.demo = false) (hf : env.remoteFails = false) :
    (handleImport env now true parsedBookmarks s ctr).bookmarks.map importedProjection =
      s.bookmarks.map importedProjection ++
        (parsedBookmarks.filter
          (fun p => ¬ (existingUrls s).contains (normalizeUrl p.url))).map
          parsedProjection := by
  unfold handleImport
  obtain ⟨T, hT, hTmap⟩ := runBatches_spec env now hd hf _ _ (Nat.le_refl _) _ s ctr
  rw [hT, List.map_append, hTmap]
  simp

/-- C10 witness: two in-file records with the same new normalized URL are
both inserted when duplicates are skipped. -/
theorem C10_witness :
    envLocal.demo = false ∧ envLocal.remoteFails = false ∧
    (handleImport envLocal 9 true
        [{ url := "http://n.com/a", title := "n1" },
         { url := "http://n.com/a", title := "n2" }] sampleState 0).bookmarks.map
          importedProjection =
      sampleState.bookmarks.map importedProjection ++
        ([{ url := "http://n.com/a", title := "n1" },
          { url := "http://n.com/a", title := "n2" }].filter
          (fun p : ParsedBookmark =>
            ¬ (existingUrls sampleState).contains (normalizeUrl p.url))).map
          parsedProjection :=
  ⟨rfl, rfl, C10_no_dedup_within_working_set envLocal 9 _ sampleState 0 rfl rfl⟩

/-- C8: when the document holds no `DL` element, `parseBookmarkHtml` returns
the single structure error, no bookmarks and no folders (and, being a total
function, never throws); the positive limit matches every call site
(2500 or 5000). -/
theorem C8_no_list_structure (doc : List Elem) (limit : Nat)
    (hdl : findFirstDL doc = none) (hl : 0 < limit) :
    parseBookmarkHtml doc limit =
      { bookmarks := [], folders := [], errors := [noStructureMessage] } := by
  unfold parseBookmarkHtml
  rw [hdl]
  dsimp only
  rw [if_neg (by simp; omega)]

/-- C8 witness: a document with a single non-list element yields exactly the
structure error. -/
theorem C8_witness :
    findFirstDL [Elem.node "P" [] "hi" []] = none ∧
    parseBookmarkHtml [Elem.node "P" [] "hi" []] 2500 =
      { bookmarks := [], folders := [], errors := [noStructureMessage] } :=
  ⟨by simp [findFirstDL, Elem.tag, Elem.children],
   C8_no_list_structure _ 2500 (by simp [findFirstDL, Elem.tag, Elem.children]) (by decide)⟩

/-! ## Character-level lemmas for the URL model (C6) -/

/-- `Char.ofNat` of a scalar value below the surrogate range reads back as
the same natural. -/
theorem toNat_ofNat_small (n : Nat) (h : n < 55296) : (Char.ofNat n).toNat = n := by
  have hv : n.isValidChar := Or.inl h
  rw [Char.ofNat, dif_pos hv]
  simp [Char.ofNatAux, Char.toNat, UInt32.toNat]

/-- ASCII lowering is idempotent. -/
theorem lowerChar_idem (c : Char) : lowerChar (lowerChar c) = lowerChar c := by
  unfold lowerChar
  by_cases h : 65 ≤ c.toNat ∧ c.toNat ≤ 90
  · rw [if_pos h]
    have ht : (Char.ofNat (c.toNat + 32)).toNat = c.toNat + 32 :=
      toNat_ofNat_small _ (by omega)
    rw [if_neg (by omega)]
  · rw [if_neg h, if_neg h]

/-- ASCII lowering preserves host-character validity. -/
theorem hostChar_lowerChar (c : Char) (h : hostChar c = true) :
    hostChar (lowerChar c) = true := by
  unfold lowerChar
  by_cases hup : 65 ≤ c.toNat ∧ c.toNat ≤ 90
  · rw [if_pos hup]
    have ht : (Char.ofNat (c.toNat + 32)).toNat = c.toNat + 32 :=
      toNat_ofNat_small _ (by omega)
    simp only [hostChar, decide_eq_true_eq, Bool.or_eq_true, ht]
    right; left
    omega
  · rw [if_neg hup]
    exact h

/-- Host characters are not URL delimiters. -/
theorem hostChar_ne (c : Char) (h : hostChar c = true) :
    c ≠ '/' ∧ c ≠ '?' ∧ c ≠ '#' ∧ c ≠ ':' ∧ c ≠ '@' := by
  refine ⟨?_, ?_, ?_, ?_, ?_⟩ <;> rintro rfl <;> exact absurd h (by decide)

/-- Path characters are neither `?` nor `#`. -/
theorem pathChar_ne (c : Char) (h : pathChar c = true) : c ≠ '?' ∧ c ≠ '#' := by
  refine ⟨?_, ?_⟩ <;> rintro rfl <;> exact absurd h (by decide)

/-- Query characters are not `#`. -/
theorem queryChar_ne (c : Char) (h : queryChar c = true) : c ≠ '#' := by
  rintro rfl; exact absurd h (by decide)

/-- `takeWhile` over a satisfied prefix stops exactly at the first failing
element. -/
theorem takeWhile_append_cons {α : Type} (p : α → Bool) (l1 : List α) (x : α)
    (l2 : List α) (h1 : ∀ c ∈ l1, p c = true) (hx : p x = false) :
    (l1 ++ x :: l2).takeWhile p = l1 := by
  induction l1 with
  | nil => simp [List.takeWhile_cons, hx]
  | cons a t ih =>
      simp only [List.cons_append, List.takeWhile_cons, h1 a (by simp), if_true]
      rw [ih (fun c hc => h1 c (by simp [hc]))]

/-- `dropWhile` over a satisfied prefix drops exactly up to the first
failing element. -/
theorem dropWhile_append_cons {α : Type} (p : α → Bool) (l1 : List α) (x : α)
    (l2 : List α) (h1 : ∀ c ∈ l1, p c = true) (hx : p x = false) :
    (l1 ++ x :: l2).dropWhile p = x :: l2 := by
  induction l1 with
  | nil => simp [List.dropWhile_cons, hx]
  | cons a t ih =>
      simp only [List.cons_append, List.dropWhile_cons, h1 a (by simp), if_true]
      exact ih (fun c hc => h1 c (by simp [hc]))

/-- `afterLastAt` is the identity on lists without `@`. -/
theorem afterLastAt_no_at (cs : List Char) (h : ∀ c ∈ cs, c ≠ '@') :
    afterLastAt cs = cs := by
  unfold afterLastAt
  rw [List.takeWhile_eq_self_iff.mpr ?_, List.reverse_reverse]
  intro c hc
  simpa using h c (List.mem_reverse.mp hc)

/-- The head that `takeWhile` keeps satisfies the predicate and heads the
original list. -/
theorem takeWhile_eq_self_of_all {α : Type} (p : α → Bool) (l : List α)
    (h : ∀ c ∈ l, p c = true) : l.takeWhile p = l :=
  List.takeWhile_eq_self_iff.mpr h

/-- `dropWhile` over an all-satisfying list is empty. -/
theorem dropWhile_eq_nil_of_all {α : Type} (p : α → Bool) (l : List α)
    (h : ∀ c ∈ l, p c = true) : l.dropWhile p = [] :=
  List.dropWhile_eq_nil_iff.mpr h

/-- `schemeSplit` recognizes an explicit `http://` prefix. -/
theorem schemeSplit_http (rest : List Char) :
    schemeSplit ('h' :: 't' :: 't' :: 'p' :: ':' :: '/' :: '/' :: rest) =
      some ("http:", rest) := by
  unfold schemeSplit
  simp [lowerChar]

/-- `schemeSplit` recognizes an explicit `https://` prefix. -/
theorem schemeSplit_https (rest : List Char) :
    schemeSplit ('h' :: 't' :: 't' :: 'p' :: 's' :: ':' :: '/' :: '/' :: rest) =
      some ("https:", rest) := by
  unfold schemeSplit
  simp [lowerChar]

/-- Rendering valid URL components and re-parsing them recovers exactly the
components. -/
theorem parseAfterScheme_render (proto hostS pathS searchS : String)
    (hh1 : hostS.data ≠ []) (hh2 : ∀ c ∈ hostS.data, hostChar c = true)
    (hh3 : hostS.data.map lowerChar = hostS.data)
    (t : List Char) (hpt : pathS.data = '/' :: t)
    (hp2 : ∀ c ∈ pathS.data, pathChar c = true)
    (hp3 : hasDotSeg pathS.data = false)
    (hs : searchS.data = [] ∨
      ∃ q, q ≠ [] ∧ (∀ c ∈ q, queryChar c = true) ∧ searchS.data = '?' :: q) :
    parseAfterScheme proto (hostS.data ++ pathS.data ++ searchS.data) =
      some ⟨proto, hostS, pathS, searchS⟩ := by
  unfold parseAfterScheme
  have hDhost : ∀ c ∈ hostS.data,
      (fun c => decide ¬(c = '/' ∨ c = '?' ∨ c = '#')) c = true := by
    intro c hc
    obtain ⟨h1, h2, h3, _, _⟩ := hostChar_ne c (hh2 c hc)
    simp [h1, h2, h3]
  have hrest : hostS.data ++ pathS.data ++ searchS.data
      = hostS.data ++ '/' :: (t ++ searchS.data) := by
    rw [List.append_assoc, hpt]
    rfl
  rw [hrest]
  rw [takeWhile_append_cons _ _ _ _ hDhost (by simp)]
  rw [dropWhile_append_cons _ _ _ _ hDhost (by simp)]
  dsimp only
  rw [afterLastAt_no_at _ (fun c hc => (hostChar_ne c (hh2 c hc)).2.2.2.2)]
  rw [takeWhile_eq_self_of_all _ _
    (fun c hc => by simpa using (hostChar_ne c (hh2 c hc)).2.2.2.1)]
  rw [dropWhile_eq_nil_of_all _ _
    (fun c hc => by simpa using (hostChar_ne c (hh2 c hc)).2.2.2.1)]
  rw [if_neg hh1]
  rw [if_neg (by simp only [not_not]; exact List.all_eq_true.mpr hh2)]
  rw [if_neg (by simp)]
  have hDpath : ∀ c ∈ pathS.data,
      (fun c => decide ¬(c = '?' ∨ c = '#')) c = true := by
    intro c hc
    obtain ⟨h1, h2⟩ := pathChar_ne c (hp2 c hc)
    simp [h1, h2]
  have hback : ('/' :: (t ++ searchS.data) : List Char)
      = pathS.data ++ searchS.data := by
    rw [hpt]
    rfl
  rw [hback]
  rcases hs with hs | ⟨q, hq1, hq2, hq3⟩
  · rw [hs, List.append_nil]
    rw [takeWhile_eq_self_of_all _ _ hDpath]
    rw [dropWhile_eq_nil_of_all _ _ hDpath]
    rw [if_neg (by simp only [not_not]; exact List.all_eq_true.mpr hp2)]
    rw [if_neg (by simp [hp3])]
    have hne : pathS.data ≠ [] := by rw [hpt]; simp
    rw [if_neg hne]
    dsimp only
    rw [if_neg (by simp)]
    have hps : String.mk pathS.data = pathS := rfl
    have hss : (searchS : String) = "" := by
      have : searchS = String.mk searchS.data := rfl
      rw [this, hs]
    rw [hps, hh3, if_pos rfl, hss]
  · rw [hq3]
    rw [takeWhile_append_cons _ _ _ _ hDpath (by simp)]
    rw [dropWhile_append_cons _ _ _ _ hDpath (by simp)]
    rw [if_neg (by simp only [not_not]; exact List.all_eq_true.mpr hp2)]
    rw [if_neg (by simp [hp3])]
    have hne : pathS.data ≠ [] := by rw [hpt]; simp
    rw [if_neg hne]
    dsimp only
    rw [if_pos (rfl : ('?' : Char) = '?')]
    rw [takeWhile_eq_self_of_all _ _
      (fun c hc => by simpa using queryChar_ne c (hq2 c hc))]
    rw [if_neg (by simp only [not_not]; exact List.all_eq_true.mpr hq2)]
    rw [if_neg hq1]
    have hps : String.mk pathS.data = pathS := rfl
    have hss : String.mk ('?' :: q) = searchS := by
      have : searchS = String.mk searchS.data := rfl
      rw [this, hq3]
    rw [hps, hh3, hss]

/-- The head kept by `takeWhile` heads the original list and satisfies the
predicate. -/
theorem takeWhile_head {α : Type} (p : α → Bool) (l : List α) (a : α)
    (h : (l.takeWhile p).head? = some a) : l.head? = some a ∧ p a = true := by
  cases l with
  | nil => simp [List.takeWhile] at h
  | cons x xs =>
      rw [List.takeWhile_cons] at h
      by_cases hx : p x
      · rw [if_pos hx] at h
        simp only [List.head?_cons, Option.some.injEq] at h
        exact ⟨by simp [h], h ▸ hx⟩
      · rw [if_neg hx] at h
        simp at h

/-- The head surviving `dropWhile` fails the predicate. -/
theorem dropWhile_head {α : Type} (p : α → Bool) (l : List α) (a : α)
    (h : (l.dropWhile p).head? = some a) : p a = false := by
  induction l with
  | nil => simp [List.dropWhile] at h
  | cons x xs ih =>
      rw [List.dropWhile_cons] at h
      by_cases hx : p x
      · rw [if_pos hx] at h
        exact ih h
      · rw [if_neg hx] at h
        simp only [List.head?_cons, Option.some.injEq] at h
        rw [← h]
        simpa using hx

/-- A successful `schemeSplit` yields one of the two special protocols. -/
theorem schemeSplit_proto (cs : List Char) (p : String) (r : List Char)
    (h : schemeSplit cs = some (p, r)) : p = "https:" ∨ p = "http:" := by
  unfold schemeSplit at h
  split at h
  · exact Or.inl (congrArg Prod.fst (Option.some.inj h)).symm
  · split at h
    · exact Or.inr (congrArg Prod.fst (Option.some.inj h)).symm
    · exact Option.noConfusion h

/-- A successful parse yields components satisfying the validity facts the
render lemma needs. -/
theorem parseAfterScheme_inv (proto : String) (rest : List Char) (u : URLParts)
    (h : parseAfterScheme proto rest = some u) :
    u.protocol = proto ∧
    u.hostname.data ≠ [] ∧ (∀ c ∈ u.hostname.data, hostChar c = true) ∧
    u.hostname.data.map lowerChar = u.hostname.data ∧
    (∃ t, u.pathname.data = '/' :: t) ∧ (∀ c ∈ u.pathname.data, pathChar c = true) ∧
    hasDotSeg u.pathname.data = false ∧
    (u.search.data = [] ∨
      ∃ q, q ≠ [] ∧ (∀ c ∈ q, queryChar c = true) ∧ u.search.data = '?' :: q) := by
  unfold parseAfterScheme at h
  dsimp only at h
  split at h
  · exact Option.noConfusion h
  rename_i hHostNe
  split at h
  · exact Option.noConfusion h
  rename_i hHostAll
  split at h
  · exact Option.noConfusion h
  rename_i hPort
  split at h
  · exact Option.noConfusion h
  rename_i hPathAll
  split at h
  · exact Option.noConfusion h
  rename_i hDotSeg
  split at h
  · exact Option.noConfusion h
  rename_i hQueryAll
  injection h with h
  subst h
  have hHostAll' : ∀ c ∈ (rest.takeWhile
        (fun c => ¬(c = '/' ∨ c = '?' ∨ c = '#'))).reverse.takeWhile (fun c => c ≠ '@')
          |>.reverse.takeWhile (fun c => c ≠ ':'), hostChar c = true := by
    intro c hc
    have := List.all_eq_true.mp (by simpa using hHostAll)
    exact this c (by simpa [afterLastAt] using hc)
  refine ⟨rfl, ?_, ?_, ?_, ?_, ?_, ?_, ?_⟩
  · simpa using hHostNe
  · intro c hc
    dsimp only at hc
    rcases List.mem_map.mp hc with ⟨c0, hc0, rfl⟩
    apply hostChar_lowerChar
    exact List.all_eq_true.mp (by simpa using hHostAll) c0 hc0
  · dsimp only
    rw [List.map_map]
    apply List.map_congr_left
    intro c _
    exact lowerChar_idem c
  · -- pathname facts: the rendered path heads with a slash
    by_cases hpe : (rest.dropWhile (fun c => ¬(c = '/' ∨ c = '?' ∨ c = '#'))).takeWhile
        (fun c => ¬(c = '?' ∨ c = '#')) = []
    · rw [if_pos hpe]
      exact ⟨[], rfl⟩
    · rw [if_neg hpe]
      obtain ⟨a, t0, hat⟩ := List.exists_cons_of_ne_nil hpe
      have hhead : _ := takeWhile_head _ _ a (by rw [hat]; rfl)
      have hfail := dropWhile_head _ rest a hhead.1
      have ha : a = '/' := by
        have h1 := hhead.2
        simp only [decide_eq_true_eq, not_or] at h1
        simp only [decide_eq_false_iff_not, not_not] at hfail
        rcases hfail with hf | hf | hf
        · exact hf
        · exact absurd hf h1.1
        · exact absurd hf h1.2
      exact ⟨t0, by rw [hat, ha]⟩
  · intro c hc
    split at hc
    · simp only [String.data] at hc
      have : c = '/' := by simpa using hc
      rw [this]
      decide
    · exact List.all_eq_true.mp (by simpa using hPathAll) c (by simpa using hc)
  · split
    · rfl
    · simpa using hDotSeg
  · by_cases hq :
      (match (rest.dropWhile (fun c => ¬(c = '/' ∨ c = '?' ∨ c = '#'))).dropWhile
          (fun c => ¬(c = '?' ∨ c = '#')) with
        | c :: qs => if c = '?' then qs.takeWhile (fun c => c ≠ '#') else []
        | [] => []) = []
    · rw [if_pos hq]
      exact Or.inl rfl
    · rw [if_neg hq]
      refine Or.inr ⟨_, hq, ?_, rfl⟩
      intro c hc
      exact List.all_eq_true.mp (by simpa using hQueryAll) c hc

/-- A list without the `/.`-pair keeps that property when its last element
is dropped. -/
theorem hasDotSeg_dropLast : ∀ l : List Char, hasDotSeg l = false →
    hasDotSeg l.dropLast = false
  | [], _ => rfl
  | [_], _ => rfl
  | c1 :: c2 :: rest, h => by
      rw [hasDotSeg] at h
      simp only [Bool.or_eq_false_iff] at h
      cases rest with
      | nil => rfl
      | cons r rs =>
          rw [List.dropLast_cons₂, List.dropLast_cons₂, hasDotSeg]
          have := hasDotSeg_dropLast (c2 :: r :: rs) h.2
          rw [List.dropLast_cons₂] at this
          simp [h.1, this]

/-- `/`-headed paths stay `/`-headed, path-valid and dot-segment-free under
the `replace(/\/$/, '') || '/'` normalization. -/
theorem normalizePath_facts (p : String) (t : List Char) (hpt : p.data = '/' :: t)
    (hall : ∀ c ∈ p.data, pathChar c = true) (hdot : hasDotSeg p.data = false) :
    (∃ t2, (normalizePath p).data = '/' :: t2) ∧
    (∀ c ∈ (normalizePath p).data, pathChar c = true) ∧
    hasDotSeg (normalizePath p).data = false := by
  unfold normalizePath stripOneTrailingSlash
  rw [hpt]
  cases hlast : ('/' :: t : List Char).getLast? with
  | none => simp at hlast
  | some c =>
      dsimp only
      by_cases hc : c = '/'
      · rw [if_pos hc]
        cases t with
        | nil =>
            rw [show (['/'] : List Char).dropLast = [] from rfl]
            rw [if_pos (show (String.mk [] = "") from rfl)]
            exact ⟨⟨[], rfl⟩, by intro c hc; simp at hc; rw [hc]; decide, rfl⟩
        | cons t0 ts =>
            rw [List.dropLast_cons₂]
            rw [if_neg (by simp [String.ext_iff])]
            refine ⟨⟨(t0 :: ts).dropLast, rfl⟩, ?_, ?_⟩
            · intro c2 hc2
              refine hall c2 ?_
              rw [hpt]
              exact List.mem_of_mem_dropLast (by simpa using hc2)
            · have := hasDotSeg_dropLast ('/' :: t0 :: ts) (by rw [← hpt]; exact hdot)
              rw [List.dropLast_cons₂] at this
              simpa using this
      · rw [if_neg hc]
        rw [if_neg (by simp [String.ext_iff, hpt])]
        refine ⟨⟨t, by rw [hpt]⟩, hall, hdot⟩

/-- The path normalization is idempotent on `/`-headed paths that do not end
in a double slash. -/
theorem normalizePath_idem (p : String) (t : List Char) (hpt : p.data = '/' :: t)
    (hnd : endsInDoubleSlash p = false) :
    normalizePath (normalizePath p) = normalizePath p := by
  unfold endsInDoubleSlash at hnd
  by_cases hl : p.data.getLast? = some '/'
  · cases t with
    | nil =>
        -- p = "/"
        have hp : p = "/" := by
          rw [show ("/" : String) = String.mk ('/' :: []) from rfl, String.ext_iff, hpt]
        rw [hp]
        rfl
    | cons t0 ts =>
        have hstrip : stripOneTrailingSlash p = String.mk p.data.dropLast := by
          unfold stripOneTrailingSlash
          rw [hl]
          dsimp only
          rw [if_pos rfl]
        have hne : p.data.dropLast ≠ [] := by
          rw [hpt, List.dropLast_cons₂]
          simp
        have hnorm : normalizePath p = String.mk p.data.dropLast := by
          unfold normalizePath
          rw [hstrip, if_neg (by simpa [String.ext_iff] using hne)]
        rw [hnorm]
        have hnd2 : p.data.dropLast.getLast? ≠ some '/' := by
          intro hcon
          rw [hl, hcon] at hnd
          simp at hnd
        unfold normalizePath stripOneTrailingSlash
        cases hl2 : (String.mk p.data.dropLast).data.getLast? with
        | none => rw [if_neg (by simpa [String.ext_iff] using hne)]
        | some c2 =>
            dsimp only
            have hc2 : c2 ≠ '/' := by
              intro hcon
              exact hnd2 (by simpa [hcon] using hl2)
            rw [if_neg hc2]
            rw [if_neg (by simpa [String.ext_iff] using hne)]
  · have hstrip : stripOneTrailingSlash p = p := by
      unfold stripOneTrailingSlash
      cases hl2 : p.data.getLast? with
      | none => rfl
      | some c =>
          dsimp only
          rw [if_neg (fun hcon => hl (by rw [hl2, hcon]))]
    have hnorm : normalizePath p = p := by
      unfold normalizePath
      rw [hstrip, if_neg (by simp [String.ext_iff, hpt])]
    rw [hnorm, hnorm]

/-- Appending one slash to a slash-free-tailed path normalizes to the same
path. -/
theorem normalizePath_append_slash (p q : String) (hq : q.data = p.data ++ ['/'])
    (hnd : endsInDoubleSlash q = false) (t : List Char) (hpt : p.data = '/' :: t) :
    normalizePath q = normalizePath p := by
  have hql : q.data.getLast? = some '/' := by rw [hq]; exact List.getLast?_concat _
  have hqdl : q.data.dropLast = p.data := by rw [hq]; exact List.dropLast_concat
  have hpl : p.data.getLast? ≠ some '/' := by
    intro hcon
    unfold endsInDoubleSlash at hnd
    rw [hql, hqdl, hcon] at hnd
    simp at hnd
  have hstripq : stripOneTrailingSlash q = p := by
    unfold stripOneTrailingSlash
    rw [hql]
    dsimp only
    rw [if_pos rfl, hqdl]
  have hstripp : stripOneTrailingSlash p = p := by
    unfold stripOneTrailingSlash
    cases hl2 : p.data.getLast? with
    | none => rfl
    | some c =>
        dsimp only
        rw [if_neg (fun hcon => hpl (by rw [hl2, hcon]))]
  unfold normalizePath
  rw [hstripq, hstripp]

/-- Rendering valid URL components and parsing the full URL string recovers
the components. -/
theorem parseURL_render (proto hostS pathS searchS : String)
    (hp : proto = "http:" ∨ proto = "https:")
    (hh1 : hostS.data ≠ []) (hh2 : ∀ c ∈ hostS.data, hostChar c = true)
    (hh3 : hostS.data.map lowerChar = hostS.data)
    (t : List Char) (hpt : pathS.data = '/' :: t)
    (hp2 : ∀ c ∈ pathS.data, pathChar c = true)
    (hp3 : hasDotSeg pathS.data = false)
    (hs : searchS.data = [] ∨
      ∃ q, q ≠ [] ∧ (∀ c ∈ q, queryChar c = true) ∧ searchS.data = '?' :: q) :
    parseURL (proto ++ "//" ++ hostS ++ pathS ++ searchS) =
      some ⟨proto, hostS, pathS, searchS⟩ := by
  unfold parseURL
  have hdata : (proto ++ "//" ++ hostS ++ pathS ++ searchS).data
      = proto.data ++ '/' :: '/' :: (hostS.data ++ pathS.data ++ searchS.data) := by
    simp only [String.data_append]
    simp [List.append_assoc]
  rw [hdata]
  rcases hp with rfl | rfl
  · rw [show ("http:" : String).data ++
        '/' :: '/' :: (hostS.data ++ pathS.data ++ searchS.data)
        = 'h' :: 't' :: 't' :: 'p' :: ':' :: '/' :: '/' ::
          (hostS.data ++ pathS.data ++ searchS.data) from rfl]
    rw [schemeSplit_http]
    exact parseAfterScheme_render _ hostS pathS searchS hh1 hh2 hh3 t hpt hp2 hp3 hs
  · rw [show ("https:" : String).data ++
        '/' :: '/' :: (hostS.data ++ pathS.data ++ searchS.data)
        = 'h' :: 't' :: 't' :: 'p' :: 's' :: ':' :: '/' :: '/' ::
          (hostS.data ++ pathS.data ++ searchS.data) from rfl]
    rw [schemeSplit_https]
    exact parseAfterScheme_render _ hostS pathS searchS hh1 hh2 hh3 t hpt hp2 hp3 hs

/-- `normalizeUrl` on a parseable input renders exactly the lower-cased
host, normalized path and query. -/
theorem normalizeUrl_eq_render (x : String) (u : URLParts) (h : parseURL x = some u)
    (hh3 : u.hostname.data.map lowerChar = u.hostname.data) :
    normalizeUrl x =
      u.protocol ++ "//" ++ u.hostname ++ normalizePath u.pathname ++ u.search := by
  unfold normalizeUrl
  rw [h]
  dsimp only
  have hls : lowerStr u.hostname = u.hostname := by
    unfold lowerStr
    rw [hh3]
  rw [hls]

/-- Re-parsing a normalized URL succeeds and yields the same components with
the once-normalized path. -/
theorem normalizeUrl_roundtrip (x : String) (u : URLParts) (h : parseURL x = some u) :
    parseURL (normalizeUrl x) =
      some ⟨u.protocol, u.hostname, normalizePath u.pathname, u.search⟩ := by
  have h' := h
  unfold parseURL at h'
  cases hss : schemeSplit x.data with
  | none => rw [hss] at h'; exact Option.noConfusion h'
  | some pr =>
      obtain ⟨proto, rest⟩ := pr
      rw [hss] at h'
      obtain ⟨hup, hh1, hh2, hh3, ⟨t, hpt⟩, hp2, hp3, hs⟩ :=
        parseAfterScheme_inv proto rest u h'
      have hproto : u.protocol = "http:" ∨ u.protocol = "https:" := by
        rcases schemeSplit_proto _ _ _ hss with hx | hx <;>
          rw [hup, hx] <;> simp
      obtain ⟨hfact1, hfact2, hfact3⟩ := normalizePath_facts u.pathname t hpt hp2 hp3
      obtain ⟨t2, hpt2⟩ := hfact1
      rw [normalizeUrl_eq_render x u h hh3]
      exact parseURL_render u.protocol u.hostname (normalizePath u.pathname) u.search
        hproto hh1 hh2 hh3 t2 hpt2 hfact2 hfact3 hs

/-- A successful `parseURL` yields components satisfying the URL validity
facts. -/
theorem parseURL_inv (x : String) (u : URLParts) (h : parseURL x = some u) :
    (u.protocol = "http:" ∨ u.protocol = "https:") ∧
    u.hostname.data ≠ [] ∧ (∀ c ∈ u.hostname.data, hostChar c = true) ∧
    u.hostname.data.map lowerChar = u.hostname.data ∧
    (∃ t, u.pathname.data = '/' :: t) ∧ (∀ c ∈ u.pathname.data, pathChar c = true) ∧
    hasDotSeg u.pathname.data = false ∧
    (u.search.data = [] ∨
      ∃ q, q ≠ [] ∧ (∀ c ∈ q, queryChar c = true) ∧ u.search.data = '?' :: q) := by
  unfold parseURL at h
  cases hss : schemeSplit x.data with
  | none => rw [hss] at h; exact Option.noConfusion h
  | some pr =>
      obtain ⟨proto, rest⟩ := pr
      rw [hss] at h
      obtain ⟨hup, hrest⟩ := parseAfterScheme_inv proto rest u h
      refine ⟨?_, hrest⟩
      rcases schemeSplit_proto _ _ _ hss with hpx | hpx <;> rw [hup, hpx] <;> simp

/-- C6 counterexample: `normalizeUrl` is not idempotent — a path ending in
two slashes loses exactly one slash per application. -/
theorem C6_counterexample :
    normalizeUrl (normalizeUrl "http://example.com/a//") ≠
      normalizeUrl "http://example.com/a//" ∧
    normalizeUrl "http://example.com/a//" = "http://example.com/a/" ∧
    normalizeUrl (normalizeUrl "http://example.com/a//") = "http://example.com/a" := by
  refine ⟨by decide, by decide, by decide⟩

/-- C6 amended: `normalizeUrl` is idempotent on every URL whose parsed path
does not end in a double slash (for a path ending in `//` one application
strips only the final slash, so a second application strips another), and
two parseable URLs whose parses agree on protocol, host (which is
lower-cased, covering host-case differences) and query, and whose paths
are equal or differ by one trailing slash not creating a double slash,
normalize to the same string. -/
theorem C6_amended_normalizeUrl :
    (∀ (x : String) (u : URLParts), parseURL x = some u →
      endsInDoubleSlash u.pathname = false →
      normalizeUrl (normalizeUrl x) = normalizeUrl x) ∧
    (∀ (x y : String) (u v : URLParts), parseURL x = some u → parseURL y = some v →
      u.protocol = v.protocol → u.hostname = v.hostname → u.search = v.search →
      (u.pathname = v.pathname ∨
        (v.pathname.data = u.pathname.data ++ ['/'] ∧
          endsInDoubleSlash v.pathname = false) ∨
        (u.pathname.data = v.pathname.data ++ ['/'] ∧
          endsInDoubleSlash u.pathname = false)) →
      normalizeUrl x = normalizeUrl y) := by
  constructor
  · intro x u h hnd
    obtain ⟨hproto, hh1, hh2, hh3, ⟨t, hpt⟩, hp2, hp3, hs⟩ := parseURL_inv x u h
    have hrt := normalizeUrl_roundtrip x u h
    have e2 := normalizeUrl_eq_render (normalizeUrl x)
      ⟨u.protocol, u.hostname, normalizePath u.pathname, u.search⟩ hrt hh3
    rw [e2]
    dsimp only
    rw [normalizePath_idem u.pathname t hpt hnd,
      ← normalizeUrl_eq_render x u h hh3]
  · intro x y u v hx hy hpr hhost hsearch hdisj
    obtain ⟨_, _, _, hh3u, ⟨t, hptu⟩, _, _, _⟩ := parseURL_inv x u hx
    obtain ⟨_, _, _, hh3v, ⟨s2, hptv⟩, _, _, _⟩ := parseURL_inv y v hy
    rw [normalizeUrl_eq_render x u hx hh3u, normalizeUrl_eq_render y v hy hh3v]
    have hpp : normalizePath u.pathname = normalizePath v.pathname := by
      rcases hdisj with he | ⟨hq, hnd⟩ | ⟨hq, hnd⟩
      · rw [he]
      · exact (normalizePath_append_slash u.pathname v.pathname hq hnd t hptu).symm
      · exact normalizePath_append_slash v.pathname u.pathname hq hnd s2 hptv
    rw [hpr, hhost, hsearch, hpp]

/-- C6 amended witness: idempotence on a clean URL, and host-case plus
trailing-slash variants normalizing equal. -/
theorem C6_amended_witness :
    normalizeUrl (normalizeUrl "http://example.com/a") =
      normalizeUrl "http://example.com/a" ∧
    normalizeUrl "http://A.com/x" = normalizeUrl "http://a.com/x/" := by
  constructor
  · exact C6_amended_normalizeUrl.1 "http://example.com/a"
      ⟨"http:", "example.com", "/a", ""⟩ (by decide) (by decide)
  · exact C6_amended_normalizeUrl.2 "http://A.com/x" "http://a.com/x/"
      ⟨"http:", "a.com", "/x", ""⟩ ⟨"http:", "a.com", "/x/", ""⟩
      (by decide) (by decide) rfl rfl rfl
      (Or.inr (Or.inl ⟨by decide, by decide⟩))

end BookmarkApp
